import Mathlib

/-!
Shallow embedding of the bibtex lexical scanner (src/scanner.go, src/token.go)
and proofs about it.

The Go scanner reads runes from a `bufio.Reader`; we model the reader as a
zipper over the input: `left` holds the already-consumed characters (most
recent first), `right` the remaining input.  `bufio` permits exactly one
`UnreadRune` immediately after a successful `ReadRune`; the flag `canUnread`
models that permission.  `unread` returns `none` in exactly the situations
the Go code must avoid: calling it when the permission is absent (Go's
`UnreadRune` would fail and the position bookkeeping would desynchronise),
or popping the line history when it is empty (Go would panic with an
index-out-of-range).  Fallible operations therefore return `Option`.

Brace-depth counters and the column counter are Go `int`s and are modelled
as `Int`.  Input characters are Lean `Char` (Go runes); Go's
`var eof = rune(0)` sentinel is the character with code point 0, so a NUL
character embedded in the input is treated as end of input exactly as the Go
code does.
-/

set_option maxRecDepth 8192

namespace Bibtex

/-- Modelled from the spec: the lexer's token-kind constants (`tILLEGAL`,
`tEOF`, `tATSIGN`, ..., referenced by scanner.go) are declared in a file of
this repository that is not under src/.  Per the spec, TokenKind is a closed
enumeration with pairwise-distinct members ILLEGAL, EOF, AT-SIGN, COLON,
COMMA, EQUAL, POUND, LBRACE, RBRACE, IDENT, BARE-IDENT, COMMENT, PREAMBLE,
STRING, and the `return 0, ""` in Scan's end-of-input case is "an EOF token
(empty literal)", a terminal token distinct from ILLEGAL. -/
inductive token where
  | tILLEGAL
  | tEOF
  | tATSIGN
  | tCOLON
  | tCOMMA
  | tEQUAL
  | tPOUND
  | tLBRACE
  | tRBRACE
  | tIDENT
  | tBAREIDENT
  | tCOMMENT
  | tPREAMBLE
  | tSTRING
deriving Repr, DecidableEq

open token

/-- Go: `var eof = rune(0)` (src/token.go). -/
def eof : Char := Char.ofNat 0

/-- Go: `isWhitespace` (src/token.go). -/
def isWhitespace (ch : Char) : Bool :=
  ch = ' ' || ch = '\t' || ch = '\n' || ch = '\r'

/-- Go: `isAlpha` (src/token.go). -/
def isAlpha (ch : Char) : Bool :=
  ('a' ≤ ch && ch ≤ 'z') || ('A' ≤ ch && ch ≤ 'Z')

/-- Go: `isDigit` (src/token.go). -/
def isDigit (ch : Char) : Bool :=
  '0' ≤ ch && ch ≤ '9'

/-- Go: `isAlphanum` (src/token.go). -/
def isAlphanum (ch : Char) : Bool :=
  isAlpha ch || isDigit ch

/-- Go: `isBareSymbol` (src/token.go): `strings.ContainsRune("-_:./+", ch)`. -/
def isBareSymbol (ch : Char) : Bool :=
  "-_:./+".data.contains ch

/-- Go: `tokenPos` with fields `Char int` and `Lines []int`; `Lines` records
the column width of each completed line, appended at the end. -/
structure tokenPos where
  Char : Int
  Lines : List Int
deriving Repr, DecidableEq

/-- Go: `scanner` wraps a `bufio.Reader` and a `tokenPos`.  The reader is
modelled as the zipper `(left, right)` plus the one-rune pushback permission
`canUnread` (see the file header). -/
structure scanner where
  left : List Char
  right : List Char
  pos : tokenPos
  canUnread : Bool
deriving Repr, DecidableEq

/-- Go: `newScanner` — fresh reader over the input,
`pos: tokenPos{Char: 0, Lines: []int{}}`. -/
def newScanner (input : List Char) : scanner :=
  { left := [], right := input, pos := { Char := 0, Lines := [] }, canUnread := false }

/-- Go: `(*scanner).read`.  Returns `rune(0)` at end of input without moving;
otherwise consumes one character, appending the finished line's width to
`pos.Lines` on a newline and bumping `pos.Char` otherwise.  A successful read
grants the pushback permission; a failed one revokes it (bufio). -/
def read (s : scanner) : Char × scanner :=
  match s.right with
  | [] => (eof, { s with canUnread := false })
  | ch :: rest =>
      if ch = '\n' then
        (ch, { left := ch :: s.left, right := rest,
               pos := { Char := 0, Lines := s.pos.Lines ++ [s.pos.Char] },
               canUnread := true })
      else
        (ch, { left := ch :: s.left, right := rest,
               pos := { s.pos with Char := s.pos.Char + 1 },
               canUnread := true })

/-- Go: `(*scanner).unread`.  Puts the previously read rune back and inverts
the position update: if `pos.Char == 0` the last completed line's width is
popped off `pos.Lines` and becomes the current column, else `pos.Char` is
decremented.  Returns `none` where the Go code would go wrong: no pushback
permission (`bufio.UnreadRune` fails while the position still mutates), or
an empty `pos.Lines` (Go panics on `Lines[len-1]` with `len = 0`). -/
def unread (s : scanner) : Option scanner :=
  if s.canUnread = false then none
  else
    match s.left with
    | [] => none
    | ch :: rest =>
        if s.pos.Char = 0 then
          match s.pos.Lines.getLast? with
          | none => none
          | some w =>
              some { left := rest, right := ch :: s.right,
                     pos := { Char := w, Lines := s.pos.Lines.dropLast },
                     canUnread := false }
        else
          some { left := rest, right := ch :: s.right,
                 pos := { s.pos with Char := s.pos.Char - 1 },
                 canUnread := false }

/-- Auxiliary decrease lemma: a read that did not report end of input
consumed one character. -/
theorem read_length_lt (s : scanner) (h : (read s).1 ≠ eof) :
    ((read s).2).right.length < s.right.length := by
  unfold read at *
  match hr : s.right with
  | [] => simp [hr] at h
  | ch :: rest =>
      simp only [hr] at *
      split <;> simp

/-- Go: the `for` loop of `(*scanner).ignoreWhitespace`: consume characters
until end of input or the first non-whitespace character, which is pushed
back. -/
def ignoreWhitespace (s : scanner) : Option scanner :=
  let p := read s
  if _heof : p.1 = eof then some p.2
  else if !isWhitespace p.1 then unread p.2
  else ignoreWhitespace p.2
termination_by s.right.length
decreasing_by exact read_length_lt s _heof

/-- Go: the `for` loop of `(*scanner).scanBare`: accumulate alphanumeric,
bare-symbol and whitespace characters, counting the current run of trailing
whitespace; stop at end of input, or push back the first other character. -/
def scanBareLoop (s : scanner) (buf : String) (trailingWhitespace : Nat) :
    Option ((String × Nat) × scanner) :=
  let p := read s
  if _heof : p.1 = eof then some ((buf, trailingWhitespace), p.2)
  else if !isAlphanum p.1 && !isBareSymbol p.1 && !isWhitespace p.1 then
    match unread p.2 with
    | none => none
    | some s' => some ((buf, trailingWhitespace), s')
  else
    let tw := if isWhitespace p.1 then trailingWhitespace + 1 else 0
    scanBareLoop p.2 (buf.push p.1) tw
termination_by s.right.length
decreasing_by exact read_length_lt s _heof

/-- Modelled after Go `strings.ToLower`, character by character.  On the
characters the bare scanner can accumulate (ASCII letters, digits, the
bare symbols `-_:./+` and whitespace — `isAlphanum`, `isBareSymbol` and
`isWhitespace` accept only ASCII), Go's Unicode lowering coincides with
ASCII lowering. -/
def toLower (str : String) : String :=
  String.mk (str.data.map Char.toLower)

/-- Decimal value of a digit run (used by the `strconv.Atoi` model). -/
def digitsVal (ds : List Char) : Nat :=
  ds.foldl (fun n c => n * 10 + (c.toNat - '0'.toNat)) 0

/-- Modelled after Go `strconv.Atoi(str)` succeeding: an optional leading
sign followed by a non-empty run of decimal digits, whose value fits in a
signed 64-bit int (`Atoi` is `ParseInt(str, 10, 0)` and reports a range
error otherwise). -/
def atoiOk (str : String) : Bool :=
  let cs := str.data
  let ds := match cs with
    | c :: r => if c = '+' || c = '-' then r else cs
    | [] => []
  let neg := match cs with
    | c :: _ => c == '-'
    | [] => false
  !ds.isEmpty && ds.all (fun c => isDigit c) &&
    (if neg then digitsVal ds ≤ 2 ^ 63 else digitsVal ds < 2 ^ 63)

/-- Go: `(*scanner).scanBare` — run the accumulation loop, truncate the
trailing whitespace (`buf.Truncate(buf.Len() - trailingWhitespace)`), then
classify: case-insensitive reserved words `comment` / `preamble` / `string`;
a literal accepted by `strconv.Atoi` while `parseField` is set is `tIDENT`;
everything else is `tBAREIDENT`. -/
def scanBare (s : scanner) (parseField : Bool) : Option ((token × String) × scanner) :=
  match scanBareLoop s "" 0 with
  | none => none
  | some ((buf, trailingWhitespace), s') =>
      let str := String.mk (buf.data.take (buf.data.length - trailingWhitespace))
      if toLower str = "comment" then some ((tCOMMENT, str), s')
      else if toLower str = "preamble" then some ((tPREAMBLE, str), s')
      else if toLower str = "string" then some ((tSTRING, str), s')
      else if atoiOk str && parseField then some ((tIDENT, str), s')
      else some ((tBAREIDENT, str), s')

/-- Go: the `for` loop of `(*scanner).scanBraced`: backslashes are copied
through; an open brace is copied and increments the depth; a close brace
decrements the depth and, when the depth reaches zero, ends the literal as
`tIDENT` without being copied, otherwise it is copied; whitespace and all
other characters are copied; end of input yields `tILLEGAL` with the buffer
accumulated so far. -/
def scanBracedLoop (s : scanner) (brace : Int) (buf : String) :
    (token × String) × scanner :=
  let p := read s
  if _heof : p.1 = eof then ((tILLEGAL, buf), p.2)
  else if p.1 = '\\' then scanBracedLoop p.2 brace (buf.push p.1)
  else if p.1 = '\x7b' then scanBracedLoop p.2 (brace + 1) (buf.push p.1)
  else if p.1 = '\x7d' then
    if brace - 1 = 0 then ((tIDENT, buf), p.2)
    else scanBracedLoop p.2 (brace - 1) (buf.push p.1)
  else if isWhitespace p.1 then scanBracedLoop p.2 brace (buf.push p.1)
  else scanBracedLoop p.2 brace (buf.push p.1)
termination_by s.right.length
decreasing_by all_goals exact read_length_lt s _heof

/-- Go: `(*scanner).scanBraced`, entered with the open brace already
consumed (`brace := 1`). -/
def scanBraced (s : scanner) : (token × String) × scanner :=
  scanBracedLoop s 1 ""

/-- Go: the `for` loop of `(*scanner).scanQuoted`: braces adjust the depth
and are NOT copied into the buffer; a quote at depth zero ends the literal as
`tIDENT` (quote not copied), a quote at non-zero depth is copied; all other
characters are copied; end of input yields `tILLEGAL` with the buffer
accumulated so far. -/
def scanQuotedLoop (s : scanner) (brace : Int) (buf : String) :
    (token × String) × scanner :=
  let p := read s
  if _heof : p.1 = eof then ((tILLEGAL, buf), p.2)
  else if p.1 = '\x7b' then scanQuotedLoop p.2 (brace + 1) buf
  else if p.1 = '\x7d' then scanQuotedLoop p.2 (brace - 1) buf
  else if p.1 = '"' then
    if brace = 0 then ((tIDENT, buf), p.2)
    else scanQuotedLoop p.2 brace (buf.push p.1)
  else scanQuotedLoop p.2 brace (buf.push p.1)
termination_by s.right.length
decreasing_by all_goals exact read_length_lt s _heof

/-- Go: `(*scanner).scanQuoted`, entered with the open quote already
consumed (`brace := 0`). -/
def scanQuoted (s : scanner) : (token × String) × scanner :=
  scanQuotedLoop s 0 ""

/-- Go: `(*scanner).scanIdent`: read one more character; `"` delegates to
the quoted scanner, `{` to the braced scanner, anything else is pushed back
and the bare scanner runs.  The global `parseField` is only read (by
`scanBare`), never written, on these paths; it is passed as a parameter. -/
def scanIdent (s : scanner) (parseField : Bool) : Option ((token × String) × scanner) :=
  let p := read s
  if p.1 = '"' then some (scanQuoted p.2)
  else if p.1 = '\x7b' then some (scanBraced p.2)
  else
    match unread p.2 with
    | none => none
    | some s' => scanBare s' parseField

/-- Go: the package-level mutable state together with one scanner: scanner.go
declares `var parseField bool` at package scope (src/scanner.go line 11), so
the field-context flag lives outside the `scanner` struct.  `Scan` is the
only writer; the sub-scanners only read it. -/
structure World where
  parseField : Bool
  st : scanner
deriving Repr, DecidableEq

/-- Go: the dispatch of `(*scanner).Scan` on the character `ch` it has read
after the optional whitespace skip, `s2` being the scanner right after the
read that produced `ch`: alphanumeric is pushed back and delegated to
`scanIdent`; otherwise the `switch` of the Go code runs, updating the global
`parseField` exactly where Go does (`,` clears it, `=` sets it, `}` clears it
when set). -/
def scanStep (pf : Bool) (ch : Char) (s2 : scanner) : Option ((token × String) × World) :=
      if isAlphanum ch then
        match unread s2 with
        | none => none
        | some s3 =>
            match scanIdent s3 pf with
            | none => none
            | some r => some (r.1, { parseField := pf, st := r.2 })
      else if ch = eof then some ((tEOF, ""), { parseField := pf, st := s2 })
      else if ch = '@' then some ((tATSIGN, String.mk [ch]), { parseField := pf, st := s2 })
      else if ch = ':' then some ((tCOLON, String.mk [ch]), { parseField := pf, st := s2 })
      else if ch = ',' then
        some ((tCOMMA, String.mk [ch]), { parseField := false, st := s2 })
      else if ch = '=' then
        some ((tEQUAL, String.mk [ch]), { parseField := true, st := s2 })
      else if ch = '"' then
        let r := scanQuoted s2
        some (r.1, { parseField := pf, st := r.2 })
      else if ch = '\x7b' then
        if pf then
          let r := scanBraced s2
          some (r.1, { parseField := pf, st := r.2 })
        else some ((tLBRACE, String.mk [ch]), { parseField := pf, st := s2 })
      else if ch = '\x7d' then
        some ((tRBRACE, String.mk [ch]),
              { parseField := if pf then false else pf, st := s2 })
      else if ch = '#' then some ((tPOUND, String.mk [ch]), { parseField := pf, st := s2 })
      else if ch = ' ' then
        match ignoreWhitespace s2 with
        | none => none
        | some sW => some ((tILLEGAL, String.mk [ch]), { parseField := pf, st := sW })
      else some ((tILLEGAL, String.mk [ch]), { parseField := pf, st := s2 })

/-- Go: `(*scanner).Scan`: read a character; if it is whitespace, skip the
whitespace run and read again; then dispatch on the resulting character
(`scanStep`). -/
def Scan (w : World) : Option ((token × String) × World) :=
  let pf := w.parseField
  let p1 := read w.st
  if isWhitespace p1.1 then
    match ignoreWhitespace p1.2 with
    | none => none
    | some sW =>
        let p2 := read sW
        scanStep pf p2.1 p2.2
  else scanStep pf p1.1 p1.2

/-- Two scanner instances in the same process: the Go package has a single
`var parseField bool`, shared by every `scanner` value; the readers are
per-instance. -/
structure World2 where
  parseField : Bool
  st1 : scanner
  st2 : scanner
deriving Repr, DecidableEq

/-- Run `Scan` on the first scanner instance; the shared global is read and
written, the second instance's reader is untouched. -/
def scanFst (w : World2) : Option ((token × String) × World2) :=
  match Scan { parseField := w.parseField, st := w.st1 } with
  | none => none
  | some (r, w') => some (r, { parseField := w'.parseField, st1 := w'.st, st2 := w.st2 })

/-- Run `Scan` on the second scanner instance; the shared global is read and
written, the first instance's reader is untouched. -/
def scanSnd (w : World2) : Option ((token × String) × World2) :=
  match Scan { parseField := w.parseField, st := w.st2 } with
  | none => none
  | some (r, w') => some (r, { parseField := w'.parseField, st1 := w.st1, st2 := w'.st })

/-! Basic facts about `read` and `unread`. -/

/-- States reachable from `newScanner`: the column counter is non-negative
and every recorded line width is non-negative. -/
def Inv (s : scanner) : Prop :=
  0 ≤ s.pos.Char ∧ ∀ x ∈ s.pos.Lines, 0 ≤ x

instance (s : scanner) : Decidable (Inv s) := by
  unfold Inv; infer_instance

theorem read_nil (s : scanner) (h : s.right = []) :
    read s = (eof, { s with canUnread := false }) := by
  unfold read; rw [h]

theorem read_fst (s : scanner) (c : Char) (cs : List Char) (h : s.right = c :: cs) :
    (read s).1 = c := by
  simp only [read, h]
  split <;> rfl

theorem read_right (s : scanner) (c : Char) (cs : List Char) (h : s.right = c :: cs) :
    ((read s).2).right = cs := by
  simp only [read, h]
  split <;> rfl

theorem read_ne_eof (s : scanner) (h : (read s).1 ≠ eof) :
    ∃ c cs, s.right = c :: cs := by
  match hr : s.right with
  | [] => rw [read_nil s hr] at h; simp at h
  | c :: cs => exact ⟨c, cs, rfl⟩

theorem read_set_canUnread (s : scanner) (b : Bool) (c : Char) (cs : List Char)
    (h : s.right = c :: cs) :
    read { s with canUnread := b } = read s := by
  simp only [read, h]

/-- The heart of the pushback discipline: `unread` immediately after a `read`
that produced a real character restores the scanner exactly (up to the spent
pushback permission), including across a newline, where the last completed
line's width is popped back off `pos.Lines` and becomes the current column. -/
theorem unread_read (s : scanner) (c : Char) (cs : List Char)
    (h : s.right = c :: cs) (hc : 0 ≤ s.pos.Char) :
    unread (read s).2 = some { s with canUnread := false } := by
  by_cases hnl : c = '\n'
  · subst hnl
    simp only [read, h, if_pos rfl, unread]
    simp [List.getLast?_concat, List.dropLast_concat, ← h]
  · have h1 : ¬(s.pos.Char + 1 = 0) := by omega
    simp only [read, h, if_neg hnl, unread]
    simp [h1, ← h]

theorem Inv_read (s : scanner) (h : Inv s) : Inv (read s).2 := by
  obtain ⟨h1, h2⟩ := h
  match hr : s.right with
  | [] =>
      rw [read_nil s hr]
      exact ⟨h1, h2⟩
  | c :: cs =>
      by_cases hnl : c = '\n'
      · subst hnl
        simp only [read, hr, if_pos rfl]
        refine ⟨le_refl 0, ?_⟩
        intro x hx
        rcases List.mem_append.1 hx with hx | hx
        · exact h2 x hx
        · rw [List.mem_singleton.1 hx]; exact h1
      · simp only [read, hr, if_neg hnl]
        exact ⟨by show 0 ≤ s.pos.Char + 1; omega, h2⟩

theorem Inv_set_canUnread (s : scanner) (b : Bool) (h : Inv s) :
    Inv { s with canUnread := b } := h

/-! Totality and invariant preservation of the sub-scanners. -/

theorem ignoreWhitespace_total (s : scanner) :
    Inv s → ∃ s', ignoreWhitespace s = some s' ∧ Inv s' := by
  induction s using ignoreWhitespace.induct with
  | case1 x p heof =>
      intro h
      refine ⟨(read x).2, ?_, Inv_read x h⟩
      rw [ignoreWhitespace]
      simp only [dif_pos heof]
  | case2 x p heof hws =>
      intro h
      obtain ⟨c, cs, hr⟩ := read_ne_eof x heof
      refine ⟨{ x with canUnread := false }, ?_, h⟩
      rw [ignoreWhitespace]
      rw [dif_neg heof, if_pos hws]
      exact unread_read x c cs hr h.1
  | case3 x p heof hws ih =>
      intro h
      obtain ⟨s', h1, h2⟩ := ih (Inv_read x h)
      refine ⟨s', ?_, h2⟩
      rw [ignoreWhitespace]
      rw [dif_neg heof, if_neg hws]
      exact h1

theorem scanBareLoop_total (s : scanner) (buf : String) (tw : Nat) :
    Inv s → ∃ r, scanBareLoop s buf tw = some r ∧ Inv r.2 := by
  induction s, buf, tw using scanBareLoop.induct with
  | case1 s buf tw p heof =>
      intro h
      refine ⟨((buf, tw), (read s).2), ?_, Inv_read s h⟩
      rw [scanBareLoop]
      simp only [dif_pos heof]
  | case2 s buf tw p heof hcls hnone =>
      intro h
      obtain ⟨c, cs, hr⟩ := read_ne_eof s heof
      rw [unread_read s c cs hr h.1] at hnone
      exact absurd hnone (by simp)
  | case3 s buf tw p heof hcls s' hsome =>
      intro h
      obtain ⟨c, cs, hr⟩ := read_ne_eof s heof
      have hres := unread_read s c cs hr h.1
      rw [hres] at hsome
      injection hsome with hs
      subst hs
      refine ⟨((buf, tw), { s with canUnread := false }), ?_, h⟩
      rw [scanBareLoop]
      simp only [dif_neg heof, if_pos hcls, hres]
  | case4 s buf tw p heof hcls tw2 ih =>
      intro h
      obtain ⟨r, h1, h2⟩ := ih (Inv_read s h)
      refine ⟨r, ?_, h2⟩
      rw [scanBareLoop]
      simp only [dif_neg heof, if_neg hcls]
      exact h1

theorem Inv_scanBracedLoop (s : scanner) (brace : Int) (buf : String) :
    Inv s → Inv (scanBracedLoop s brace buf).2 := by
  induction s, brace, buf using scanBracedLoop.induct with
  | case1 s brace buf p heof =>
      intro h
      rw [scanBracedLoop]; simp only [dif_pos heof]
      exact Inv_read s h
  | case2 s brace buf p heof h1 ih =>
      intro h
      rw [scanBracedLoop]; simp only [dif_neg heof, if_pos h1]
      exact ih (Inv_read s h)
  | case3 s brace buf p heof h1 h2 ih =>
      intro h
      rw [scanBracedLoop]; simp only [dif_neg heof, if_neg h1, if_pos h2]
      exact ih (Inv_read s h)
  | case4 s brace buf p heof h1 h2 h3 h4 =>
      intro h
      rw [scanBracedLoop]; simp only [dif_neg heof, if_neg h1, if_neg h2, if_pos h3, if_pos h4]
      exact Inv_read s h
  | case5 s brace buf p heof h1 h2 h3 h4 ih =>
      intro h
      rw [scanBracedLoop]; simp only [dif_neg heof, if_neg h1, if_neg h2, if_pos h3, if_neg h4]
      exact ih (Inv_read s h)
  | case6 s brace buf p heof h1 h2 h3 h4 ih =>
      intro h
      rw [scanBracedLoop]; simp only [dif_neg heof, if_neg h1, if_neg h2, if_neg h3, if_pos h4]
      exact ih (Inv_read s h)
  | case7 s brace buf p heof h1 h2 h3 h4 ih =>
      intro h
      rw [scanBracedLoop]; simp only [dif_neg heof, if_neg h1, if_neg h2, if_neg h3, if_neg h4]
      exact ih (Inv_read s h)

theorem Inv_scanQuotedLoop (s : scanner) (brace : Int) (buf : String) :
    Inv s → Inv (scanQuotedLoop s brace buf).2 := by
  induction s, brace, buf using scanQuotedLoop.induct with
  | case1 s brace buf p heof =>
      intro h
      rw [scanQuotedLoop]; simp only [dif_pos heof]
      exact Inv_read s h
  | case2 s brace buf p heof h1 ih =>
      intro h
      rw [scanQuotedLoop]; simp only [dif_neg heof, if_pos h1]
      exact ih (Inv_read s h)
  | case3 s brace buf p heof h1 h2 ih =>
      intro h
      rw [scanQuotedLoop]; simp only [dif_neg heof, if_neg h1, if_pos h2]
      exact ih (Inv_read s h)
  | case4 s buf p heof h1 h2 h3 =>
      intro h
      rw [scanQuotedLoop]; simp only [dif_neg heof, if_neg h1, if_neg h2, if_pos h3, if_pos rfl]
      exact Inv_read s h
  | case5 s brace buf p heof h1 h2 h3 h4 ih =>
      intro h
      rw [scanQuotedLoop]; simp only [dif_neg heof, if_neg h1, if_neg h2, if_pos h3, if_neg h4]
      exact ih (Inv_read s h)
  | case6 s brace buf p heof h1 h2 h3 ih =>
      intro h
      rw [scanQuotedLoop]; simp only [dif_neg heof, if_neg h1, if_neg h2, if_neg h3]
      exact ih (Inv_read s h)

theorem scanBracedLoop_tok (s : scanner) (brace : Int) (buf : String) :
    (scanBracedLoop s brace buf).1.1 = tILLEGAL ∨ (scanBracedLoop s brace buf).1.1 = tIDENT := by
  induction s, brace, buf using scanBracedLoop.induct with
  | case1 s brace buf p heof =>
      rw [scanBracedLoop]; simp only [dif_pos heof]
      exact Or.inl (by trivial)
  | case2 s brace buf p heof h1 ih =>
      rw [scanBracedLoop]; simp only [dif_neg heof, if_pos h1]
      exact ih
  | case3 s brace buf p heof h1 h2 ih =>
      rw [scanBracedLoop]; simp only [dif_neg heof, if_neg h1, if_pos h2]
      exact ih
  | case4 s brace buf p heof h1 h2 h3 h4 =>
      rw [scanBracedLoop]; simp only [dif_neg heof, if_neg h1, if_neg h2, if_pos h3, if_pos h4]
      exact Or.inr (by trivial)
  | case5 s brace buf p heof h1 h2 h3 h4 ih =>
      rw [scanBracedLoop]; simp only [dif_neg heof, if_neg h1, if_neg h2, if_pos h3, if_neg h4]
      exact ih
  | case6 s brace buf p heof h1 h2 h3 h4 ih =>
      rw [scanBracedLoop]; simp only [dif_neg heof, if_neg h1, if_neg h2, if_neg h3, if_pos h4]
      exact ih
  | case7 s brace buf p heof h1 h2 h3 h4 ih =>
      rw [scanBracedLoop]; simp only [dif_neg heof, if_neg h1, if_neg h2, if_neg h3, if_neg h4]
      exact ih

theorem scanQuotedLoop_tok (s : scanner) (brace : Int) (buf : String) :
    (scanQuotedLoop s brace buf).1.1 = tILLEGAL ∨ (scanQuotedLoop s brace buf).1.1 = tIDENT := by
  induction s, brace, buf using scanQuotedLoop.induct with
  | case1 s brace buf p heof =>
      rw [scanQuotedLoop]; simp only [dif_pos heof]
      exact Or.inl (by trivial)
  | case2 s brace buf p heof h1 ih =>
      rw [scanQuotedLoop]; simp only [dif_neg heof, if_pos h1]
      exact ih
  | case3 s brace buf p heof h1 h2 ih =>
      rw [scanQuotedLoop]; simp only [dif_neg heof, if_neg h1, if_pos h2]
      exact ih
  | case4 s buf p heof h1 h2 h3 =>
      rw [scanQuotedLoop]; simp only [dif_neg heof, if_neg h1, if_neg h2, if_pos h3, if_pos rfl]
      exact Or.inr (by trivial)
  | case5 s brace buf p heof h1 h2 h3 h4 ih =>
      rw [scanQuotedLoop]; simp only [dif_neg heof, if_neg h1, if_neg h2, if_pos h3, if_neg h4]
      exact ih
  | case6 s brace buf p heof h1 h2 h3 ih =>
      rw [scanQuotedLoop]; simp only [dif_neg heof, if_neg h1, if_neg h2, if_neg h3]
      exact ih

theorem scanBare_tok (s : scanner) (pf : Bool) (tok : token) (lit : String) (s' : scanner)
    (h : scanBare s pf = some ((tok, lit), s')) :
    tok = tCOMMENT ∨ tok = tPREAMBLE ∨ tok = tSTRING ∨ tok = tIDENT ∨ tok = tBAREIDENT := by
  unfold scanBare at h
  cases hl : scanBareLoop s "" 0 with
  | none => rw [hl] at h; simp at h
  | some r =>
      obtain ⟨⟨buf, tw⟩, s₂⟩ := r
      rw [hl] at h
      simp only at h
      split at h
      · simp only [Option.some.injEq, Prod.mk.injEq] at h
        exact Or.inl h.1.1.symm
      · split at h
        · simp only [Option.some.injEq, Prod.mk.injEq] at h
          exact Or.inr (Or.inl h.1.1.symm)
        · split at h
          · simp only [Option.some.injEq, Prod.mk.injEq] at h
            exact Or.inr (Or.inr (Or.inl h.1.1.symm))
          · split at h
            · simp only [Option.some.injEq, Prod.mk.injEq] at h
              exact Or.inr (Or.inr (Or.inr (Or.inl h.1.1.symm)))
            · simp only [Option.some.injEq, Prod.mk.injEq] at h
              exact Or.inr (Or.inr (Or.inr (Or.inr h.1.1.symm)))

theorem scanIdent_tok (s : scanner) (pf : Bool) (tok : token) (lit : String) (s' : scanner)
    (h : scanIdent s pf = some ((tok, lit), s')) :
    tok = tILLEGAL ∨ tok = tIDENT ∨ tok = tCOMMENT ∨ tok = tPREAMBLE ∨
      tok = tSTRING ∨ tok = tBAREIDENT := by
  simp only [scanIdent] at h
  split at h
  · simp only [Option.some.injEq] at h
    have h2 : (scanQuoted (read s).2).1.1 = tILLEGAL ∨ (scanQuoted (read s).2).1.1 = tIDENT :=
      scanQuotedLoop_tok (read s).2 0 ""
    rw [h] at h2
    simp only at h2
    rcases h2 with h2 | h2
    · exact Or.inl h2
    · exact Or.inr (Or.inl h2)
  · split at h
    · simp only [Option.some.injEq] at h
      have h2 : (scanBraced (read s).2).1.1 = tILLEGAL ∨ (scanBraced (read s).2).1.1 = tIDENT :=
        scanBracedLoop_tok (read s).2 1 ""
      rw [h] at h2
      simp only at h2
      rcases h2 with h2 | h2
      · exact Or.inl h2
      · exact Or.inr (Or.inl h2)
    · split at h
      · exact absurd h (by simp)
      · rcases scanBare_tok _ _ _ _ _ h with h1 | h1 | h1 | h1 | h1
        · exact Or.inr (Or.inr (Or.inl h1))
        · exact Or.inr (Or.inr (Or.inr (Or.inl h1)))
        · exact Or.inr (Or.inr (Or.inr (Or.inr (Or.inl h1))))
        · exact Or.inr (Or.inl h1)
        · exact Or.inr (Or.inr (Or.inr (Or.inr (Or.inr h1))))

theorem isAlphanum_ne (c : Char) (h : isAlphanum c = true) :
    c ≠ eof ∧ c ≠ '"' ∧ c ≠ '\x7b' ∧ isWhitespace c = false := by
  refine ⟨?_, ?_, ?_, ?_⟩
  · rintro rfl; exact absurd h (by decide)
  · rintro rfl; exact absurd h (by decide)
  · rintro rfl; exact absurd h (by decide)
  · by_contra hw
    rw [Bool.not_eq_false] at hw
    simp only [isWhitespace, Bool.or_eq_true, decide_eq_true_eq] at hw
    rcases hw with ((hc | hc) | hc) | hc <;>
      (subst hc; exact absurd h (by decide))

theorem scanBare_total (s : scanner) (pf : Bool) (h : Inv s) :
    ∃ r, scanBare s pf = some r ∧ Inv r.2 := by
  obtain ⟨⟨⟨buf, tw⟩, s₂⟩, h1, h2⟩ := scanBareLoop_total s "" 0 h
  have h2' : Inv s₂ := h2
  simp only [scanBare, h1]
  split
  · exact ⟨_, rfl, h2'⟩
  · split
    · exact ⟨_, rfl, h2'⟩
    · split
      · exact ⟨_, rfl, h2'⟩
      · split
        · exact ⟨_, rfl, h2'⟩
        · exact ⟨_, rfl, h2'⟩

theorem scanIdent_total (s : scanner) (pf : Bool) (c : Char) (cs : List Char)
    (hr : s.right = c :: cs) (hc : isAlphanum c = true) (h : Inv s) :
    ∃ r, scanIdent s pf = some r ∧ Inv r.2 := by
  obtain ⟨hne, hq, hb, hws⟩ := isAlphanum_ne c hc
  have hf := read_fst s c cs hr
  have hres := unread_read s c cs hr h.1
  obtain ⟨r, h1, h2⟩ := scanBare_total { s with canUnread := false } pf h
  refine ⟨r, ?_, h2⟩
  simp only [scanIdent, hf, if_neg hq, if_neg hb, hres]
  exact h1

theorem scanStep_total (pf : Bool) (sb : scanner) (h : Inv sb) :
    ∃ r, scanStep pf (read sb).1 (read sb).2 = some r ∧ Inv r.2.st := by
  by_cases ha : isAlphanum (read sb).1 = true
  · obtain ⟨hne, _, _, _⟩ := isAlphanum_ne _ ha
    obtain ⟨c, cs, hr⟩ := read_ne_eof sb hne
    have hf := read_fst sb c cs hr
    have hres := unread_read sb c cs hr h.1
    obtain ⟨r, hsi, hinv⟩ := scanIdent_total { sb with canUnread := false } pf c cs hr
      (by rw [← hf]; exact ha) h
    refine ⟨(r.1, { parseField := pf, st := r.2 }), ?_, hinv⟩
    simp only [scanStep, if_pos ha, hres, hsi]
  · rw [Bool.not_eq_true] at ha
    by_cases h1 : (read sb).1 = eof
    · exact ⟨_, by simp only [scanStep, ha, Bool.false_eq_true, if_false, if_pos h1]; rfl,
        Inv_read sb h⟩
    by_cases h2 : (read sb).1 = '@'
    · exact ⟨_, by simp only [scanStep, ha, Bool.false_eq_true, if_false, if_neg h1,
        if_pos h2]; rfl, Inv_read sb h⟩
    by_cases h3 : (read sb).1 = ':'
    · exact ⟨_, by simp only [scanStep, ha, Bool.false_eq_true, if_false, if_neg h1,
        if_neg h2, if_pos h3]; rfl, Inv_read sb h⟩
    by_cases h4 : (read sb).1 = ','
    · exact ⟨_, by simp only [scanStep, ha, Bool.false_eq_true, if_false, if_neg h1,
        if_neg h2, if_neg h3, if_pos h4]; rfl, Inv_read sb h⟩
    by_cases h5 : (read sb).1 = '='
    · exact ⟨_, by simp only [scanStep, ha, Bool.false_eq_true, if_false, if_neg h1,
        if_neg h2, if_neg h3, if_neg h4, if_pos h5]; rfl, Inv_read sb h⟩
    by_cases h6 : (read sb).1 = '"'
    · exact ⟨_, by simp only [scanStep, ha, Bool.false_eq_true, if_false, if_neg h1,
        if_neg h2, if_neg h3, if_neg h4, if_neg h5, if_pos h6]; rfl,
        Inv_scanQuotedLoop (read sb).2 0 "" (Inv_read sb h)⟩
    by_cases h7 : (read sb).1 = '\x7b'
    · by_cases hpf : pf = true
      · exact ⟨_, by simp only [scanStep, ha, Bool.false_eq_true, if_false, if_neg h1,
          if_neg h2, if_neg h3, if_neg h4, if_neg h5, if_neg h6, if_pos h7, if_pos hpf]; rfl,
          Inv_scanBracedLoop (read sb).2 1 "" (Inv_read sb h)⟩
      · exact ⟨_, by simp only [scanStep, ha, Bool.false_eq_true, if_false, if_neg h1,
          if_neg h2, if_neg h3, if_neg h4, if_neg h5, if_neg h6, if_pos h7, if_neg hpf]; rfl,
          Inv_read sb h⟩
    by_cases h8 : (read sb).1 = '\x7d'
    · exact ⟨_, by simp only [scanStep, ha, Bool.false_eq_true, if_false, if_neg h1,
        if_neg h2, if_neg h3, if_neg h4, if_neg h5, if_neg h6, if_neg h7, if_pos h8]; rfl,
        Inv_read sb h⟩
    by_cases h9 : (read sb).1 = '#'
    · exact ⟨_, by simp only [scanStep, ha, Bool.false_eq_true, if_false, if_neg h1,
        if_neg h2, if_neg h3, if_neg h4, if_neg h5, if_neg h6, if_neg h7, if_neg h8,
        if_pos h9]; rfl, Inv_read sb h⟩
    by_cases h10 : (read sb).1 = ' '
    · obtain ⟨sW, hW1, hW2⟩ := ignoreWhitespace_total (read sb).2 (Inv_read sb h)
      exact ⟨_, by simp only [scanStep, ha, Bool.false_eq_true, if_false, if_neg h1,
        if_neg h2, if_neg h3, if_neg h4, if_neg h5, if_neg h6, if_neg h7, if_neg h8,
        if_neg h9, if_pos h10, hW1]; rfl, hW2⟩
    · exact ⟨_, by simp only [scanStep, ha, Bool.false_eq_true, if_false, if_neg h1,
        if_neg h2, if_neg h3, if_neg h4, if_neg h5, if_neg h6, if_neg h7, if_neg h8,
        if_neg h9, if_neg h10]; rfl, Inv_read sb h⟩

/-- The `parseField` transition performed by the dispatch: `tEQUAL` sets the
global, `tCOMMA` clears it, `tRBRACE` leaves it clear (clearing it when set),
and every other returned token leaves it unchanged. -/
theorem scanStep_pf (pf : Bool) (ch : Char) (s2 : scanner) (tok : token) (lit : String)
    (w' : World) (h : scanStep pf ch s2 = some ((tok, lit), w')) :
    w'.parseField = (if tok = tEQUAL then true else if tok = tCOMMA then false
                     else if tok = tRBRACE then false else pf) := by
  simp only [scanStep] at h
  by_cases ha : isAlphanum ch = true
  · rw [if_pos ha] at h
    split at h
    · exact absurd h (by simp)
    · split at h
      · exact absurd h (by simp)
      · rename_i s3 hs3 r hsi
        obtain ⟨⟨tk, lt⟩, st'⟩ := r
        simp only [Option.some.injEq, Prod.mk.injEq] at h
        obtain ⟨⟨ht, -⟩, hw⟩ := h
        subst ht
        subst hw
        rcases scanIdent_tok _ _ _ _ _ hsi with h1 | h1 | h1 | h1 | h1 | h1 <;>
          (subst h1; simp)
  · rw [if_neg ha] at h
    by_cases h1 : ch = eof
    · rw [if_pos h1] at h
      simp only [Option.some.injEq, Prod.mk.injEq] at h
      obtain ⟨⟨ht, -⟩, hw⟩ := h
      subst ht; subst hw; simp
    rw [if_neg h1] at h
    by_cases h2 : ch = '@'
    · rw [if_pos h2] at h
      simp only [Option.some.injEq, Prod.mk.injEq] at h
      obtain ⟨⟨ht, -⟩, hw⟩ := h
      subst ht; subst hw; simp
    rw [if_neg h2] at h
    by_cases h3 : ch = ':'
    · rw [if_pos h3] at h
      simp only [Option.some.injEq, Prod.mk.injEq] at h
      obtain ⟨⟨ht, -⟩, hw⟩ := h
      subst ht; subst hw; simp
    rw [if_neg h3] at h
    by_cases h4 : ch = ','
    · rw [if_pos h4] at h
      simp only [Option.some.injEq, Prod.mk.injEq] at h
      obtain ⟨⟨ht, -⟩, hw⟩ := h
      subst ht; subst hw; simp
    rw [if_neg h4] at h
    by_cases h5 : ch = '='
    · rw [if_pos h5] at h
      simp only [Option.some.injEq, Prod.mk.injEq] at h
      obtain ⟨⟨ht, -⟩, hw⟩ := h
      subst ht; subst hw; simp
    rw [if_neg h5] at h
    by_cases h6 : ch = '"'
    · rw [if_pos h6] at h
      simp only [Option.some.injEq, Prod.mk.injEq] at h
      obtain ⟨ht, hw⟩ := h
      subst hw
      rcases scanQuotedLoop_tok s2 0 "" with h1 | h1 <;>
        (have h1' : (scanQuoted s2).1.1 = _ := h1
         have ht1 : tok = (scanQuoted s2).1.1 := by rw [ht]
         rw [ht1, h1']
         simp)
    rw [if_neg h6] at h
    by_cases h7 : ch = '\x7b'
    · rw [if_pos h7] at h
      by_cases hpf : pf = true
      · rw [if_pos hpf] at h
        simp only [Option.some.injEq, Prod.mk.injEq] at h
        obtain ⟨ht, hw⟩ := h
        subst hw
        rcases scanBracedLoop_tok s2 1 "" with h1 | h1 <;>
          (have h1' : (scanBraced s2).1.1 = _ := h1
           have ht1 : tok = (scanBraced s2).1.1 := by rw [ht]
           rw [ht1, h1']
           simp)
      · rw [if_neg hpf] at h
        simp only [Option.some.injEq, Prod.mk.injEq] at h
        obtain ⟨⟨ht, -⟩, hw⟩ := h
        subst ht; subst hw; simp
    rw [if_neg h7] at h
    by_cases h8 : ch = '\x7d'
    · rw [if_pos h8] at h
      simp only [Option.some.injEq, Prod.mk.injEq] at h
      obtain ⟨⟨ht, -⟩, hw⟩ := h
      subst ht; subst hw
      cases pf <;> simp
    rw [if_neg h8] at h
    by_cases h9 : ch = '#'
    · rw [if_pos h9] at h
      simp only [Option.some.injEq, Prod.mk.injEq] at h
      obtain ⟨⟨ht, -⟩, hw⟩ := h
      subst ht; subst hw; simp
    rw [if_neg h9] at h
    by_cases h10 : ch = ' '
    · rw [if_pos h10] at h
      split at h
      · exact absurd h (by simp)
      · simp only [Option.some.injEq, Prod.mk.injEq] at h
        obtain ⟨⟨ht, -⟩, hw⟩ := h
        subst ht; subst hw; simp
    · rw [if_neg h10] at h
      simp only [Option.some.injEq, Prod.mk.injEq] at h
      obtain ⟨⟨ht, -⟩, hw⟩ := h
      subst ht; subst hw; simp

/-- String fact used below: pushing a character appends it to the data. -/
theorem push_data (buf : String) (c : Char) : (buf.push c).data = buf.data ++ [c] := rfl

/-- Whether the braced loop, starting at depth `brace`, would find the
matching close brace somewhere in `cs` before end of input (mirrors the
branch structure of `scanBracedLoop`). -/
def bracedCloses : List Char → Int → Bool
  | [], _ => false
  | c :: cs, brace =>
      if c = eof then false
      else if c = '\\' then bracedCloses cs brace
      else if c = '\x7b' then bracedCloses cs (brace + 1)
      else if c = '\x7d' then
        if brace - 1 = 0 then true else bracedCloses cs (brace - 1)
      else bracedCloses cs brace

/-- Whether the quoted loop, starting at depth `brace`, would find the
closing quote (a `"` at depth zero) somewhere in `cs` before end of input
(mirrors the branch structure of `scanQuotedLoop`). -/
def quotedCloses : List Char → Int → Bool
  | [], _ => false
  | c :: cs, brace =>
      if c = eof then false
      else if c = '\x7b' then quotedCloses cs (brace + 1)
      else if c = '\x7d' then quotedCloses cs (brace - 1)
      else if c = '"' then
        if brace = 0 then true else quotedCloses cs brace
      else quotedCloses cs brace

/-- If the braced loop never balances before end of input, it consumes the
whole input, copies every character through, and reports `tILLEGAL` with the
buffer accumulated so far. -/
theorem scanBracedLoop_noclose (s : scanner) (brace : Int) (buf : String) :
    (∀ x ∈ s.right, x ≠ eof) → bracedCloses s.right brace = false →
    (scanBracedLoop s brace buf).1 = (tILLEGAL, String.mk (buf.data ++ s.right)) ∧
    ((scanBracedLoop s brace buf).2).right = [] := by
  induction s, brace, buf using scanBracedLoop.induct with
  | case1 s brace buf p heof =>
      intro hno hcl
      match hr : s.right with
      | [] =>
          rw [scanBracedLoop]
          simp only [dif_pos heof]
          rw [read_nil s hr]
          simp [hr]
      | c :: cs =>
          have := read_fst s c cs hr
          rw [this] at heof
          exact absurd heof (hno c (by rw [hr]; exact List.mem_cons_self c cs))
  | case2 s brace buf p heof h1 ih =>
      intro hno hcl
      obtain ⟨c, cs, hr⟩ := read_ne_eof s heof
      have hf := read_fst s c cs hr
      have hrt := read_right s c cs hr
      rw [hf] at h1
      subst h1
      rw [scanBracedLoop]
      simp only [dif_neg heof, if_pos hf]
      rw [hr] at hcl hno
      simp only [bracedCloses, if_neg (show ¬('\\' = eof) by decide), if_pos rfl] at hcl
      obtain ⟨ha, hb⟩ := ih (by intro x hx; exact hno x (List.mem_cons_of_mem _ (hrt ▸ hx)))
        (by rw [hrt]; exact hcl)
      refine ⟨?_, hb⟩
      rw [ha, hf, hrt, push_data, hr]
      simp
  | case3 s brace buf p heof h1 h2 ih =>
      intro hno hcl
      obtain ⟨c, cs, hr⟩ := read_ne_eof s heof
      have hf := read_fst s c cs hr
      have hrt := read_right s c cs hr
      rw [hf] at h2
      subst h2
      rw [scanBracedLoop]
      simp only [dif_neg heof, if_neg h1, if_pos hf]
      rw [hr] at hcl hno
      simp only [bracedCloses, if_neg (show ¬('\x7b' = eof) by decide),
        if_neg (show ¬('\x7b' = '\\') by decide), if_pos rfl] at hcl
      obtain ⟨ha, hb⟩ := ih (by intro x hx; exact hno x (List.mem_cons_of_mem _ (hrt ▸ hx)))
        (by rw [hrt]; exact hcl)
      refine ⟨?_, hb⟩
      rw [ha, hf, hrt, push_data, hr]
      simp
  | case4 s brace buf p heof h1 h2 h3 h4 =>
      intro hno hcl
      obtain ⟨c, cs, hr⟩ := read_ne_eof s heof
      have hf := read_fst s c cs hr
      rw [hf] at h3
      subst h3
      rw [hr] at hcl
      simp only [bracedCloses, if_neg (show ¬('\x7d' = eof) by decide),
        if_neg (show ¬('\x7d' = '\\') by decide),
        if_neg (show ¬('\x7d' = '\x7b') by decide), if_pos rfl, if_pos h4] at hcl
      simp at hcl
  | case5 s brace buf p heof h1 h2 h3 h4 ih =>
      intro hno hcl
      obtain ⟨c, cs, hr⟩ := read_ne_eof s heof
      have hf := read_fst s c cs hr
      have hrt := read_right s c cs hr
      rw [hf] at h3
      subst h3
      rw [scanBracedLoop]
      simp only [dif_neg heof, if_neg h1, if_neg h2, if_pos hf, if_neg h4]
      rw [hr] at hcl hno
      simp only [bracedCloses, if_neg (show ¬('\x7d' = eof) by decide),
        if_neg (show ¬('\x7d' = '\\') by decide),
        if_neg (show ¬('\x7d' = '\x7b') by decide), if_pos rfl, if_neg h4] at hcl
      obtain ⟨ha, hb⟩ := ih (by intro x hx; exact hno x (List.mem_cons_of_mem _ (hrt ▸ hx)))
        (by rw [hrt]; exact hcl)
      refine ⟨?_, hb⟩
      rw [ha, hf, hrt, push_data, hr]
      simp
  | case6 s brace buf p heof h1 h2 h3 h4 ih =>
      intro hno hcl
      obtain ⟨c, cs, hr⟩ := read_ne_eof s heof
      have hf := read_fst s c cs hr
      have hrt := read_right s c cs hr
      rw [scanBracedLoop]
      simp only [dif_neg heof, if_neg h1, if_neg h2, if_neg h3, if_pos h4]
      rw [hr] at hcl hno
      have hc1 : ¬(c = eof) := hno c (List.mem_cons_self c cs)
      have hc2 : ¬(c = '\\') := by rw [← hf]; exact h1
      have hc3 : ¬(c = '\x7b') := by rw [← hf]; exact h2
      have hc4 : ¬(c = '\x7d') := by rw [← hf]; exact h3
      simp only [bracedCloses, if_neg hc1, if_neg hc2, if_neg hc3, if_neg hc4] at hcl
      obtain ⟨ha, hb⟩ := ih (by intro x hx; exact hno x (List.mem_cons_of_mem _ (hrt ▸ hx)))
        (by rw [hrt]; exact hcl)
      refine ⟨?_, hb⟩
      rw [ha, hf, hrt, push_data, hr]
      simp
  | case7 s brace buf p heof h1 h2 h3 h4 ih =>
      intro hno hcl
      obtain ⟨c, cs, hr⟩ := read_ne_eof s heof
      have hf := read_fst s c cs hr
      have hrt := read_right s c cs hr
      rw [scanBracedLoop]
      simp only [dif_neg heof, if_neg h1, if_neg h2, if_neg h3, if_neg h4]
      rw [hr] at hcl hno
      have hc1 : ¬(c = eof) := hno c (List.mem_cons_self c cs)
      have hc2 : ¬(c = '\\') := by rw [← hf]; exact h1
      have hc3 : ¬(c = '\x7b') := by rw [← hf]; exact h2
      have hc4 : ¬(c = '\x7d') := by rw [← hf]; exact h3
      simp only [bracedCloses, if_neg hc1, if_neg hc2, if_neg hc3, if_neg hc4] at hcl
      obtain ⟨ha, hb⟩ := ih (by intro x hx; exact hno x (List.mem_cons_of_mem _ (hrt ▸ hx)))
        (by rw [hrt]; exact hcl)
      refine ⟨?_, hb⟩
      rw [ha, hf, hrt, push_data, hr]
      simp

/-- If the quoted loop never finds its closing quote before end of input, it
consumes the whole input, copies every character except braces through, and
reports `tILLEGAL` with the buffer accumulated so far. -/
theorem scanQuotedLoop_noclose (s : scanner) (brace : Int) (buf : String) :
    (∀ x ∈ s.right, x ≠ eof) → quotedCloses s.right brace = false →
    (scanQuotedLoop s brace buf).1 =
      (tILLEGAL, String.mk (buf.data ++
        s.right.filter (fun x => !(x == '\x7b' || x == '\x7d')))) ∧
    ((scanQuotedLoop s brace buf).2).right = [] := by
  induction s, brace, buf using scanQuotedLoop.induct with
  | case1 s brace buf p heof =>
      intro hno hcl
      match hr : s.right with
      | [] =>
          rw [scanQuotedLoop]
          simp only [dif_pos heof]
          rw [read_nil s hr]
          simp [hr]
      | c :: cs =>
          have := read_fst s c cs hr
          rw [this] at heof
          exact absurd heof (hno c (by rw [hr]; exact List.mem_cons_self c cs))
  | case2 s brace buf p heof h1 ih =>
      intro hno hcl
      obtain ⟨c, cs, hr⟩ := read_ne_eof s heof
      have hf := read_fst s c cs hr
      have hrt := read_right s c cs hr
      rw [hf] at h1
      subst h1
      rw [scanQuotedLoop]
      simp only [dif_neg heof, if_pos hf]
      rw [hr] at hcl hno
      simp only [quotedCloses, if_neg (show ¬('\x7b' = eof) by decide), if_pos rfl] at hcl
      obtain ⟨ha, hb⟩ := ih (by intro x hx; exact hno x (List.mem_cons_of_mem _ (hrt ▸ hx)))
        (by rw [hrt]; exact hcl)
      refine ⟨?_, hb⟩
      rw [ha, hrt, hr]
      simp [List.filter_cons]
  | case3 s brace buf p heof h1 h2 ih =>
      intro hno hcl
      obtain ⟨c, cs, hr⟩ := read_ne_eof s heof
      have hf := read_fst s c cs hr
      have hrt := read_right s c cs hr
      rw [hf] at h2
      subst h2
      rw [scanQuotedLoop]
      simp only [dif_neg heof, if_neg h1, if_pos hf]
      rw [hr] at hcl hno
      simp only [quotedCloses, if_neg (show ¬('\x7d' = eof) by decide),
        if_neg (show ¬('\x7d' = '\x7b') by decide), if_pos rfl] at hcl
      obtain ⟨ha, hb⟩ := ih (by intro x hx; exact hno x (List.mem_cons_of_mem _ (hrt ▸ hx)))
        (by rw [hrt]; exact hcl)
      refine ⟨?_, hb⟩
      rw [ha, hrt, hr]
      simp [List.filter_cons]
  | case4 s buf p heof h1 h2 h3 =>
      intro hno hcl
      obtain ⟨c, cs, hr⟩ := read_ne_eof s heof
      have hf := read_fst s c cs hr
      rw [hf] at h3
      subst h3
      rw [hr] at hcl
      simp only [quotedCloses, if_neg (show ¬('"' = eof) by decide),
        if_neg (show ¬('"' = '\x7b') by decide),
        if_neg (show ¬('"' = '\x7d') by decide), if_pos rfl, if_pos rfl] at hcl
      simp at hcl
  | case5 s brace buf p heof h1 h2 h3 h4 ih =>
      intro hno hcl
      obtain ⟨c, cs, hr⟩ := read_ne_eof s heof
      have hf := read_fst s c cs hr
      have hrt := read_right s c cs hr
      rw [hf] at h3
      subst h3
      rw [scanQuotedLoop]
      simp only [dif_neg heof, if_neg h1, if_neg h2, if_pos hf, if_neg h4]
      rw [hr] at hcl hno
      simp only [quotedCloses, if_neg (show ¬('"' = eof) by decide),
        if_neg (show ¬('"' = '\x7b') by decide),
        if_neg (show ¬('"' = '\x7d') by decide), if_pos rfl, if_neg h4] at hcl
      obtain ⟨ha, hb⟩ := ih (by intro x hx; exact hno x (List.mem_cons_of_mem _ (hrt ▸ hx)))
        (by rw [hrt]; exact hcl)
      refine ⟨?_, hb⟩
      rw [ha, hf, hrt, push_data, hr]
      simp [List.filter_cons]
  | case6 s brace buf p heof h1 h2 h3 ih =>
      intro hno hcl
      obtain ⟨c, cs, hr⟩ := read_ne_eof s heof
      have hf := read_fst s c cs hr
      have hrt := read_right s c cs hr
      rw [scanQuotedLoop]
      simp only [dif_neg heof, if_neg h1, if_neg h2, if_neg h3]
      rw [hr] at hcl hno
      have hc1 : ¬(c = eof) := hno c (List.mem_cons_self c cs)
      have hc2 : ¬(c = '\x7b') := by rw [← hf]; exact h1
      have hc3 : ¬(c = '\x7d') := by rw [← hf]; exact h2
      have hc4 : ¬(c = '"') := by rw [← hf]; exact h3
      simp only [quotedCloses, if_neg hc1, if_neg hc2, if_neg hc3, if_neg hc4] at hcl
      obtain ⟨ha, hb⟩ := ih (by intro x hx; exact hno x (List.mem_cons_of_mem _ (hrt ▸ hx)))
        (by rw [hrt]; exact hcl)
      refine ⟨?_, hb⟩
      rw [ha, hf, hrt, push_data, hr]
      simp only [List.filter_cons, List.append_assoc, List.singleton_append]
      rw [if_pos (by simp [hc2, hc3])]

/-- The quoted scanner never copies a brace into its buffer: if the incoming
buffer is brace-free, so is the returned literal. -/
theorem scanQuotedLoop_nobrace (s : scanner) (brace : Int) (buf : String) :
    '\x7b' ∉ buf.data → '\x7d' ∉ buf.data →
    '\x7b' ∉ ((scanQuotedLoop s brace buf).1.2).data ∧
    '\x7d' ∉ ((scanQuotedLoop s brace buf).1.2).data := by
  induction s, brace, buf using scanQuotedLoop.induct with
  | case1 s brace buf p heof =>
      intro hb1 hb2
      rw [scanQuotedLoop]
      simp only [dif_pos heof]
      exact ⟨hb1, hb2⟩
  | case2 s brace buf p heof h1 ih =>
      intro hb1 hb2
      rw [scanQuotedLoop]
      simp only [dif_neg heof, if_pos h1]
      exact ih hb1 hb2
  | case3 s brace buf p heof h1 h2 ih =>
      intro hb1 hb2
      rw [scanQuotedLoop]
      simp only [dif_neg heof, if_neg h1, if_pos h2]
      exact ih hb1 hb2
  | case4 s buf p heof h1 h2 h3 =>
      intro hb1 hb2
      rw [scanQuotedLoop]
      simp only [dif_neg heof, if_neg h1, if_neg h2, if_pos h3, if_pos rfl]
      exact ⟨hb1, hb2⟩
  | case5 s brace buf p heof h1 h2 h3 h4 ih =>
      intro hb1 hb2
      rw [scanQuotedLoop]
      simp only [dif_neg heof, if_neg h1, if_neg h2, if_pos h3, if_neg h4]
      refine ih ?_ ?_ <;>
        (rw [push_data]
         simp only [List.mem_append, List.mem_singleton, not_or]
         constructor
         · first
           | exact hb1
           | exact hb2
         · rw [h3]; decide)
  | case6 s brace buf p heof h1 h2 h3 ih =>
      intro hb1 hb2
      rw [scanQuotedLoop]
      simp only [dif_neg heof, if_neg h1, if_neg h2, if_neg h3]
      refine ih ?_ ?_ <;>
        (rw [push_data]
         simp only [List.mem_append, List.mem_singleton, not_or]
         refine ⟨by first | exact hb1 | exact hb2, ?_⟩
         first
           | exact fun hx => h1 (hx ▸ rfl)
           | exact fun hx => h2 (hx ▸ rfl))

/-- The bare-scanner loop does not depend on the pushback-permission flag of
its starting state when there is input left (its first action is a read,
which overwrites the flag). -/
theorem scanBareLoop_set_canUnread (s : scanner) (b : Bool) (buf : String) (tw : Nat)
    (c : Char) (cs : List Char) (hr : s.right = c :: cs) :
    scanBareLoop { s with canUnread := b } buf tw = scanBareLoop s buf tw := by
  conv_lhs => rw [scanBareLoop]
  conv_rhs => rw [scanBareLoop]
  rw [read_set_canUnread s b c cs hr]

/-! The claims. -/

/-- Claim C1, counterexample: scanning the rest of the input
`a {"nested"} b"` after an opening quote returns an IDENT token whose
literal is `a "nested" b` — the braces are dropped — and not the
brace-retaining literal `a {"nested"} b` that the claim states. -/
theorem claim_C1_counterexample :
    (scanQuoted (newScanner "a \x7b\"nested\"\x7d b\"".data)).1
        = (tIDENT, "a \"nested\" b") ∧
    ("a \"nested\" b" : String) ≠ "a \x7b\"nested\"\x7d b" := by
  constructor
  · simp [scanQuoted, scanQuotedLoop, read, newScanner, eof] <;> decide
  · decide

/-- Claim C1, amended: in the quoted scanner every `\x7b` and `\x7d` read
before the matching close quote adjusts the brace depth but is NOT copied
into the returned literal (the literal of a quoted scan never contains a
brace), and scanning the rest of the input `a {"nested"} b"` after an
opening quote returns an IDENT token with literal `a "nested" b` — the inner
quotes are retained because the brace depth is tracked, the braces
themselves are dropped. -/
theorem claim_C1 :
    (∀ s : scanner,
        '\x7b' ∉ ((scanQuoted s).1.2).data ∧ '\x7d' ∉ ((scanQuoted s).1.2).data) ∧
    (scanQuoted (newScanner "a \x7b\"nested\"\x7d b\"".data)).1
        = (tIDENT, "a \"nested\" b") := by
  constructor
  · intro s
    exact scanQuotedLoop_nobrace s 0 "" (by simp) (by simp)
  · simp [scanQuoted, scanQuotedLoop, read, newScanner, eof] <;> decide

/-- Claim C2, counterexample: two scanner instances share the package-global
`parseField`.  With the first scanner over `=` and the second over `{x}`,
the second scanner's first token is LBRACE `{` when no scan of the first is
interleaved, but IDENT `x` when one is: the interleaved `=` scan sets the
shared flag, so the claim that interleaving never changes the second
scanner's tokens is false. -/
theorem claim_C2_counterexample :
    ((scanSnd { parseField := false, st1 := newScanner "=".data,
                st2 := newScanner "\x7bx\x7d".data }).map (fun r => r.1))
        = some (tLBRACE, "\x7b") ∧
    scanFst { parseField := false, st1 := newScanner "=".data,
              st2 := newScanner "\x7bx\x7d".data }
        = some ((tEQUAL, "="),
            { parseField := true,
              st1 := { left := ['='], right := [], pos := { Char := 1, Lines := [] },
                       canUnread := true },
              st2 := newScanner "\x7bx\x7d".data }) ∧
    ((scanSnd { parseField := true,
                st1 := { left := ['='], right := [], pos := { Char := 1, Lines := [] },
                         canUnread := true },
                st2 := newScanner "\x7bx\x7d".data }).map (fun r => r.1))
        = some (tIDENT, "x") ∧
    (tLBRACE, ("\x7b" : String)) ≠ (tIDENT, ("x" : String)) := by
  refine ⟨?_, ?_, ?_, ?_⟩
  · simp [scanSnd, Scan, scanStep, read, newScanner, eof, isWhitespace, isAlphanum,
      isAlpha, isDigit] <;> decide
  · simp [scanFst, Scan, scanStep, read, newScanner, eof, isWhitespace, isAlphanum,
      isAlpha, isDigit] <;> decide
  · simp [scanSnd, Scan, scanStep, read, newScanner, eof, isWhitespace, isAlphanum,
      isAlpha, isDigit, scanBraced, scanBracedLoop] <;> decide
  · decide

/-- Claim C2, amended: the reader state is per-instance, but the
field-context flag is one package-global shared by all scanner instances.
An interleaved scan on the first instance that leaves that flag unchanged
does not change the second instance's next scan: its token, its literal, the
flag afterwards, and its own reader state are the same as without the
interleaving. -/
theorem claim_C2 (w : World2) (r : token × String) (w₁ : World2)
    (h : scanFst w = some (r, w₁)) (hpf : w₁.parseField = w.parseField) :
    (scanSnd w₁).map (fun x => (x.1, x.2.parseField, x.2.st2)) =
    (scanSnd w).map (fun x => (x.1, x.2.parseField, x.2.st2)) := by
  have hst2 : w₁.st2 = w.st2 := by
    unfold scanFst at h
    split at h
    · exact absurd h (by simp)
    · simp only [Option.some.injEq, Prod.mk.injEq] at h
      rw [← h.2]
  unfold scanSnd
  rw [hst2, hpf]
  cases hS : Scan { parseField := w.parseField, st := w.st2 } with
  | none => simp
  | some r2 => simp

/-- Claim C2, witness for the amended theorem: an interleaved scan of `@`
(which does not touch the flag) leaves the second scanner's next scan over
`{x}` unchanged. -/
theorem claim_C2_witness :
    scanFst { parseField := false, st1 := newScanner "@".data,
              st2 := newScanner "\x7bx\x7d".data }
        = some ((tATSIGN, "@"),
            { parseField := false,
              st1 := { left := ['@'], right := [], pos := { Char := 1, Lines := [] },
                       canUnread := true },
              st2 := newScanner "\x7bx\x7d".data }) ∧
    (scanSnd { parseField := false,
               st1 := { left := ['@'], right := [], pos := { Char := 1, Lines := [] },
                        canUnread := true },
               st2 := newScanner "\x7bx\x7d".data }).map
        (fun x => (x.1, x.2.parseField, x.2.st2)) =
    (scanSnd { parseField := false, st1 := newScanner "@".data,
               st2 := newScanner "\x7bx\x7d".data }).map
        (fun x => (x.1, x.2.parseField, x.2.st2)) := by
  have h :
      scanFst { parseField := false, st1 := newScanner "@".data,
                st2 := newScanner "\x7bx\x7d".data }
        = some ((tATSIGN, "@"),
            { parseField := false,
              st1 := { left := ['@'], right := [], pos := { Char := 1, Lines := [] },
                       canUnread := true },
              st2 := newScanner "\x7bx\x7d".data }) := by
    simp [scanFst, Scan, scanStep, read, newScanner, eof, isWhitespace, isAlphanum,
      isAlpha, isDigit] <;> decide
  exact ⟨h, claim_C2 _ _ _ h rfl⟩

/-- At end of input, `Scan` returns the EOF token with an empty literal and
only spends the (already useless) pushback permission. -/
theorem Scan_eof (pf : Bool) (s : scanner) (h : s.right = []) :
    Scan { parseField := pf, st := s } =
      some ((tEOF, ""), { parseField := pf, st := { s with canUnread := false } }) := by
  simp only [Scan, read_nil s h]
  rw [if_neg (show ¬(isWhitespace eof = true) by decide)]
  simp only [scanStep]
  rw [if_neg (show ¬(isAlphanum eof = true) by decide)]
  simp

/-- Claim C3: once the reader is at end of input, `Scan` returns the EOF
token with an empty literal; that token is distinct from ILLEGAL; and the
scan changes nothing observable (only the spent bufio pushback permission),
so every subsequent call returns the same EOF token from a now-fixed state. -/
theorem claim_C3 (pf : Bool) (s : scanner) (h : s.right = []) :
    Scan { parseField := pf, st := s } =
      some ((tEOF, ""), { parseField := pf, st := { s with canUnread := false } }) ∧
    tEOF ≠ tILLEGAL ∧
    Scan { parseField := pf, st := { s with canUnread := false } } =
      some ((tEOF, ""), { parseField := pf, st := { s with canUnread := false } }) :=
  ⟨Scan_eof pf s h, by decide, Scan_eof pf { s with canUnread := false } h⟩

/-- Claim C3, witness at a concrete exhausted scanner. -/
theorem claim_C3_witness :
    (({ left := ['a'], right := [], pos := { Char := 1, Lines := [] },
        canUnread := true } : scanner).right = []) ∧
    (Scan { parseField := true,
            st := { left := ['a'], right := [], pos := { Char := 1, Lines := [] },
                    canUnread := true } } =
      some ((tEOF, ""),
        { parseField := true,
          st := { left := ['a'], right := [], pos := { Char := 1, Lines := [] },
                  canUnread := false } }) ∧
    tEOF ≠ tILLEGAL ∧
    Scan { parseField := true,
           st := { left := ['a'], right := [], pos := { Char := 1, Lines := [] },
                   canUnread := false } } =
      some ((tEOF, ""),
        { parseField := true,
          st := { left := ['a'], right := [], pos := { Char := 1, Lines := [] },
                  canUnread := false } })) :=
  ⟨rfl, claim_C3 true
    { left := ['a'], right := [], pos := { Char := 1, Lines := [] }, canUnread := true } rfl⟩

/-- Claim C4, counterexample: the field-context flag is a package-level
global that `newScanner` does not reset.  After one scanner scans `=` the
global is true; a freshly constructed scanner over `{x}` therefore starts
with the flag set and scans IDENT `x` instead of the LBRACE `{` that a
flag-cleared-at-construction scanner would return. -/
theorem claim_C4_counterexample :
    (Scan { parseField := false, st := newScanner "=".data }).map (fun r => r.2.parseField)
        = some true ∧
    ((Scan { parseField := true, st := newScanner "\x7bx\x7d".data }).map (fun r => r.1))
        = some (tIDENT, "x") ∧
    (tIDENT, ("x" : String)) ≠ (tLBRACE, ("\x7b" : String)) := by
  refine ⟨?_, ?_, ?_⟩
  · simp [Scan, scanStep, read, newScanner, eof, isWhitespace, isAlphanum,
      isAlpha, isDigit] <;> decide
  · simp [Scan, scanStep, read, newScanner, eof, isWhitespace, isAlphanum,
      isAlpha, isDigit, scanBraced, scanBracedLoop] <;> decide
  · decide

/-- Claim C4, amended: the field-context flag is the package-global
`parseField`, false when the process starts but NOT reset by scanner
construction.  Across `Scan` calls it follows exactly: returning EQUAL sets
it; returning COMMA clears it; returning RBRACE clears it when set (and
leaves it clear otherwise — `}` is the only producer of RBRACE); no other
returned token changes it. -/
theorem claim_C4 (w : World) (tok : token) (lit : String) (w' : World)
    (h : Scan w = some ((tok, lit), w')) :
    w'.parseField = (if tok = tEQUAL then true else if tok = tCOMMA then false
                     else if tok = tRBRACE then false else w.parseField) := by
  simp only [Scan] at h
  by_cases hw : isWhitespace (read w.st).1 = true
  · rw [if_pos hw] at h
    split at h
    · exact absurd h (by simp)
    · exact scanStep_pf w.parseField _ _ tok lit w' h
  · rw [if_neg hw] at h
    exact scanStep_pf w.parseField _ _ tok lit w' h

/-- Claim C4, witness: a scan of `@` leaves the flag unchanged. -/
theorem claim_C4_witness :
    (Scan { parseField := false, st := newScanner "@".data } =
      some ((tATSIGN, "@"),
        { parseField := false,
          st := { left := ['@'], right := [], pos := { Char := 1, Lines := [] },
                  canUnread := true } })) ∧
    ({ parseField := false,
       st := { left := ['@'], right := [], pos := { Char := 1, Lines := [] },
               canUnread := true } } : World).parseField =
      (if tATSIGN = tEQUAL then true else if tATSIGN = tCOMMA then false
       else if tATSIGN = tRBRACE then false
       else ({ parseField := false, st := newScanner "@".data } : World).parseField) := by
  have h : Scan { parseField := false, st := newScanner "@".data } =
      some ((tATSIGN, "@"),
        { parseField := false,
          st := { left := ['@'], right := [], pos := { Char := 1, Lines := [] },
                  canUnread := true } }) := by
    simp [Scan, scanStep, read, newScanner, eof, isWhitespace, isAlphanum,
      isAlpha, isDigit] <;> decide
  exact ⟨h, claim_C4 _ _ _ _ h⟩

/-- Claim C5: `unread` immediately after the `read` that produced a real
character `c`, followed by `read` again, returns `c` with the position
cursor exactly as it was before the first read — including across a newline,
where the last completed line's width is popped back off and becomes the
current column; the re-read lands the scanner in exactly the state the first
read produced. -/
theorem claim_C5 (s : scanner) (c : Char) (cs : List Char)
    (h : s.right = c :: cs) (hc : 0 ≤ s.pos.Char) :
    (read s).1 = c ∧
    unread (read s).2 = some { s with canUnread := false } ∧
    ({ s with canUnread := false } : scanner).pos = s.pos ∧
    read { s with canUnread := false } = ((read s).1, (read s).2) :=
  ⟨read_fst s c cs h, unread_read s c cs h hc, rfl,
   by rw [read_set_canUnread s false c cs h]⟩

/-- Claim C5, witness at a newline: reading `\n` from column 5 pushes the
line width 5, unreading pops it back. -/
theorem claim_C5_witness :
    (({ left := ['a'], right := ['\n', 'b'], pos := { Char := 5, Lines := [2] },
        canUnread := true } : scanner).right = '\n' :: ['b']) ∧
    (0 : Int) ≤ 5 ∧
    ((read { left := ['a'], right := ['\n', 'b'], pos := { Char := 5, Lines := [2] },
             canUnread := true }).1 = '\n' ∧
     unread (read { left := ['a'], right := ['\n', 'b'],
                    pos := { Char := 5, Lines := [2] }, canUnread := true }).2 =
       some { left := ['a'], right := ['\n', 'b'], pos := { Char := 5, Lines := [2] },
              canUnread := false } ∧
     ({ left := ['a'], right := ['\n', 'b'], pos := { Char := 5, Lines := [2] },
        canUnread := false } : scanner).pos =
       ({ left := ['a'], right := ['\n', 'b'], pos := { Char := 5, Lines := [2] },
          canUnread := true } : scanner).pos ∧
     read { left := ['a'], right := ['\n', 'b'], pos := { Char := 5, Lines := [2] },
            canUnread := false } =
       ((read { left := ['a'], right := ['\n', 'b'], pos := { Char := 5, Lines := [2] },
                canUnread := true }).1,
        (read { left := ['a'], right := ['\n', 'b'], pos := { Char := 5, Lines := [2] },
                canUnread := true }).2)) :=
  ⟨rfl, by decide,
   claim_C5 { left := ['a'], right := ['\n', 'b'], pos := { Char := 5, Lines := [2] },
              canUnread := true } '\n' ['b'] rfl (by decide)⟩

/-- Claim C6: with the field-context flag set, scanning `{a{b}c}` yields an
IDENT token with literal exactly `a{b}c`: the outer braces are stripped, the
inner balanced pair is preserved verbatim, and the matching closing brace is
not part of the literal. -/
theorem claim_C6 :
    ((Scan { parseField := true, st := newScanner "\x7ba\x7bb\x7dc\x7d".data }).map
      (fun r => r.1)) = some (tIDENT, "a\x7bb\x7dc") := by
  simp [Scan, scanStep, read, newScanner, eof, isWhitespace, isAlphanum, isAlpha,
    isDigit, scanBraced, scanBracedLoop] <;> decide

/-- Claim C7: a bare literal whose text is accepted by the `strconv.Atoi`
model and is none of the reserved words scans as IDENT exactly when the
field-context flag is set at classification time, and as BARE-IDENT when it
is clear. -/
theorem claim_C7 (s : scanner) (pf : Bool) (tok : token) (lit : String) (s' : scanner)
    (h : scanBare s pf = some ((tok, lit), s'))
    (hnum : atoiOk lit = true)
    (h1 : toLower lit ≠ "comment") (h2 : toLower lit ≠ "preamble")
    (h3 : toLower lit ≠ "string") :
    tok = (if pf then tIDENT else tBAREIDENT) := by
  simp only [scanBare] at h
  split at h
  · exact absurd h (by simp)
  · split at h
    · rename_i hcm
      simp only [Option.some.injEq, Prod.mk.injEq] at h
      obtain ⟨⟨-, hl⟩, -⟩ := h
      exact absurd (hl ▸ hcm) h1
    · split at h
      · rename_i hcm hpm
        simp only [Option.some.injEq, Prod.mk.injEq] at h
        obtain ⟨⟨-, hl⟩, -⟩ := h
        exact absurd (hl ▸ hpm) h2
      · split at h
        · rename_i hcm hpm hsm
          simp only [Option.some.injEq, Prod.mk.injEq] at h
          obtain ⟨⟨-, hl⟩, -⟩ := h
          exact absurd (hl ▸ hsm) h3
        · split at h
          · rename_i hcm hpm hsm hnm
            simp only [Option.some.injEq, Prod.mk.injEq] at h
            obtain ⟨⟨ht, hl⟩, -⟩ := h
            rw [Bool.and_eq_true] at hnm
            rw [← ht, if_pos hnm.2]
          · rename_i hcm hpm hsm hnm
            simp only [Option.some.injEq, Prod.mk.injEq] at h
            obtain ⟨⟨ht, hl⟩, -⟩ := h
            rw [Bool.and_eq_true, not_and] at hnm
            have hpf : ¬(pf = true) := hnm (by rw [hl]; exact hnum)
            rw [← ht, if_neg hpf]

/-- Claim C7, witness: the literal `1999` scans as IDENT with the flag set
and as BARE-IDENT with it clear. -/
theorem claim_C7_witness :
    (scanBare (newScanner "1999,".data) true =
      some ((tIDENT, "1999"),
        { left := ['9', '9', '9', '1'], right := [','],
          pos := { Char := 4, Lines := [] }, canUnread := false }) ∧
     atoiOk "1999" = true ∧
     tIDENT = (if true then tIDENT else tBAREIDENT)) ∧
    (scanBare (newScanner "1999,".data) false =
      some ((tBAREIDENT, "1999"),
        { left := ['9', '9', '9', '1'], right := [','],
          pos := { Char := 4, Lines := [] }, canUnread := false }) ∧
     tBAREIDENT = (if false then tIDENT else tBAREIDENT)) := by
  have hT : scanBare (newScanner "1999,".data) true =
      some ((tIDENT, "1999"),
        { left := ['9', '9', '9', '1'], right := [','],
          pos := { Char := 4, Lines := [] }, canUnread := false }) := by
    simp [scanBare, scanBareLoop, read, unread, newScanner, eof, isWhitespace,
      isAlphanum, isAlpha, isDigit, isBareSymbol, atoiOk, digitsVal, toLower] <;> decide
  have hF : scanBare (newScanner "1999,".data) false =
      some ((tBAREIDENT, "1999"),
        { left := ['9', '9', '9', '1'], right := [','],
          pos := { Char := 4, Lines := [] }, canUnread := false }) := by
    simp [scanBare, scanBareLoop, read, unread, newScanner, eof, isWhitespace,
      isAlphanum, isAlpha, isDigit, isBareSymbol, atoiOk, digitsVal, toLower] <;> decide
  exact ⟨⟨hT, by decide, claim_C7 _ _ _ _ _ hT (by decide) (by decide) (by decide) (by decide)⟩,
         ⟨hF, claim_C7 _ _ _ _ _ hF (by decide) (by decide) (by decide) (by decide)⟩⟩

/-- Claim C8: reaching end of input while a braced or quoted scan is still
unbalanced yields ILLEGAL carrying the literal accumulated so far (for the
braced scanner every character read, for the quoted scanner every character
except the depth-counting braces); in particular, with the flag set,
scanning `{{abc` yields ILLEGAL with literal `{abc`. -/
theorem claim_C8 :
    (∀ s : scanner, (∀ x ∈ s.right, x ≠ eof) → bracedCloses s.right 1 = false →
        (scanBraced s).1 = (tILLEGAL, String.mk s.right) ∧
        ((scanBraced s).2).right = []) ∧
    (∀ s : scanner, (∀ x ∈ s.right, x ≠ eof) → quotedCloses s.right 0 = false →
        (scanQuoted s).1 = (tILLEGAL,
          String.mk (s.right.filter (fun x => !(x == '\x7b' || x == '\x7d')))) ∧
        ((scanQuoted s).2).right = []) ∧
    ((Scan { parseField := true, st := newScanner "\x7b\x7babc".data }).map
      (fun r => r.1)) = some (tILLEGAL, "\x7babc") := by
  refine ⟨?_, ?_, ?_⟩
  · intro s hno hcl
    have h := scanBracedLoop_noclose s 1 "" hno hcl
    unfold scanBraced
    simpa using h
  · intro s hno hcl
    have h := scanQuotedLoop_noclose s 0 "" hno hcl
    unfold scanQuoted
    simpa using h
  · simp [Scan, scanStep, read, newScanner, eof, isWhitespace, isAlphanum, isAlpha,
      isDigit, scanBraced, scanBracedLoop] <;> decide

/-- Claim C8, witness: the braced scanner entered on `\x7babc` (after the
outer open brace was consumed) exhausts the input unbalanced and returns
ILLEGAL with everything it read. -/
theorem claim_C8_witness :
    (∀ x ∈ (newScanner "\x7babc".data).right, x ≠ eof) ∧
    bracedCloses (newScanner "\x7babc".data).right 1 = false ∧
    ((scanBraced (newScanner "\x7babc".data)).1 =
      (tILLEGAL, String.mk (newScanner "\x7babc".data).right) ∧
     ((scanBraced (newScanner "\x7babc".data)).2).right = []) :=
  ⟨by decide, by decide,
   claim_C8.1 (newScanner "\x7babc".data) (by decide) (by decide)⟩

/-- Claim C9: when the next unread character is alphanumeric (as at every
call site) the identifier scanner's delegations to the quoted and braced
scanners are unreachable and it returns exactly the result of the bare
scanner. -/
theorem claim_C9 (s : scanner) (pf : Bool) (c : Char) (cs : List Char)
    (hr : s.right = c :: cs) (hc : isAlphanum c = true) (hpos : 0 ≤ s.pos.Char) :
    scanIdent s pf = scanBare s pf := by
  obtain ⟨hne, hq, hb, hws⟩ := isAlphanum_ne c hc
  have hf := read_fst s c cs hr
  have hres := unread_read s c cs hr hpos
  simp only [scanIdent, hf, if_neg hq, if_neg hb, hres]
  unfold scanBare
  rw [scanBareLoop_set_canUnread s false "" 0 c cs hr]

/-- Claim C9, witness on the input `k1,`. -/
theorem claim_C9_witness :
    ((newScanner "k1,".data).right = 'k' :: "1,".data) ∧
    isAlphanum 'k' = true ∧
    (0 : Int) ≤ (newScanner "k1,".data).pos.Char ∧
    scanIdent (newScanner "k1,".data) false = scanBare (newScanner "k1,".data) false :=
  ⟨rfl, by decide, by decide,
   claim_C9 (newScanner "k1,".data) false 'k' "1,".data rfl (by decide) (by decide)⟩

/-- Claim C10: from any state satisfying the reachable-state invariant (in
particular from any fresh scanner), `Scan` never fails on position
bookkeeping: every `unread` it or its sub-scanners perform happens
immediately after a read of a real character, so the model's `none` (a
failed bufio pushback or a pop of an empty line history) never occurs, and
the resulting state again has a non-negative column counter and line
history. -/
theorem claim_C10 (pf : Bool) (s : scanner) (h : Inv s) :
    (Scan { parseField := pf, st := s }).isSome = true ∧
    ∀ r ∈ Scan { parseField := pf, st := s }, Inv r.2.st := by
  have main : ∃ r, Scan { parseField := pf, st := s } = some r ∧ Inv r.2.st := by
    by_cases hw : isWhitespace (read s).1 = true
    · obtain ⟨sW, h1, h2⟩ := ignoreWhitespace_total (read s).2 (Inv_read s h)
      obtain ⟨r, h3, h4⟩ := scanStep_total pf sW h2
      refine ⟨r, ?_, h4⟩
      simp only [Scan]
      rw [if_pos hw]
      simp only [h1]
      exact h3
    · obtain ⟨r, h3, h4⟩ := scanStep_total pf s h
      refine ⟨r, ?_, h4⟩
      simp only [Scan]
      rw [if_neg hw]
      exact h3
  obtain ⟨r, h1, h2⟩ := main
  rw [h1]
  refine ⟨rfl, ?_⟩
  intro r' hr'
  simp only [Option.mem_def, Option.some.injEq] at hr'
  subst hr'
  exact h2

/-- Claim C10, witness: a fresh scanner over `@a{b, c="d"}` satisfies the
invariant and its first scan succeeds. -/
theorem claim_C10_witness :
    Inv (newScanner "@a\x7bb, c=\"d\"\x7d".data) ∧
    (Scan { parseField := false,
            st := newScanner "@a\x7bb, c=\"d\"\x7d".data }).isSome = true := by
  have hInv : Inv (newScanner "@a\x7bb, c=\"d\"\x7d".data) := by
    constructor
    · decide
    · intro x hx
      simp [newScanner] at hx
  exact ⟨hInv, (claim_C10 false _ hInv).1⟩

end Bibtex
